import Mathlib

/-!
Verification of the mpv-tauri guest-side bridge (tauri-plugin-mpv) against
its natural-language specification.  The TypeScript API surface in
`guest-js/index.ts` (the `init` / `command` / `observeProperties` /
`listenEvents` / `getProperty` / `setProperty` family) is shallowly embedded
below; the player-state reducer of `src/hooks/usePlayer.ts` and the
request-correlation discipline of the (Rust) backend are embedded as explicit
step functions on state.
-/

namespace MpvTauri

/-- JSON-like values carried in mpv commands, responses and events
(`(string | boolean | number)[]` on the TypeScript side; numbers are
modelled as integers, which covers every value the verified code paths
construct or inspect). -/
inductive JVal where
  | str (s : String)
  | num (n : Int)
  | bool (b : Bool)
  | null
  | arr (vs : List JVal)


/-- `MpvCommand` from `guest-js/types.ts`: the raw JSON-IPC object
`\x7b command: [name, ...args], request_id? \x7d`. -/
structure MpvCommand where
  command : List JVal
  request_id : Option Int := none


/-- `MpvCommandResponse` from `guest-js/types.ts`:
`\x7b data?, error: "success" | string, request_id \x7d`. -/
structure MpvCommandResponse where
  data : Option JVal
  error : String
  request_id : Int


/-- `COMMON_PROPERTIES` from `guest-js/index.ts`: the default observed
property set. -/
def COMMON_PROPERTIES : List String :=
  [ "playlist"
  , "filename"
  , "pause"
  , "eof-reached"
  , "time-pos"
  , "duration"
  , "volume"
  , "mute"
  , "speed" ]

/-- `MpvConfig` from `guest-js/types.ts` (process-mode plugin): every
recognized option is optional on the caller's side; `none` stands for a
field that is absent from the caller's object. -/
structure MpvConfig where
  mpvPath : Option String := none
  args : Option (List String) := none
  observedProperties : Option (List String) := none
  ipcTimeoutMs : Option Int := none
  showMpvOutput : Option Bool := none


/-- `DEFAULT_MPV_CONFIG` from `guest-js/index.ts`: the module-level default
configuration constant. -/
def DEFAULT_MPV_CONFIG : MpvConfig :=
  { mpvPath := none
  , args := some
      [ "--vo=gpu-next"
      , "--hwdec=auto-safe"
      , "--keep-open=yes"
      , "--force-window" ]
  , observedProperties := some COMMON_PROPERTIES
  , ipcTimeoutMs := some 2000
  , showMpvOutput := some false }

/-- One field of the JavaScript object-spread merge
`\x7b ...DEFAULT_MPV_CONFIG, ...mpvConfig \x7d`: the caller's field wins
whenever the caller's object contains it, otherwise the default's field is
used. -/
def spreadField {α : Type} (dflt caller : Option α) : Option α :=
  match caller with
  | some v => some v
  | none => dflt

/-- The config merge performed by `init` in `guest-js/index.ts`:
`mpvConfig = \x7b ...DEFAULT_MPV_CONFIG, ...mpvConfig \x7d`. -/
def mergeConfig (c : MpvConfig) : MpvConfig :=
  { mpvPath := spreadField DEFAULT_MPV_CONFIG.mpvPath c.mpvPath
  , args := spreadField DEFAULT_MPV_CONFIG.args c.args
  , observedProperties :=
      spreadField DEFAULT_MPV_CONFIG.observedProperties c.observedProperties
  , ipcTimeoutMs := spreadField DEFAULT_MPV_CONFIG.ipcTimeoutMs c.ipcTimeoutMs
  , showMpvOutput := spreadField DEFAULT_MPV_CONFIG.showMpvOutput c.showMpvOutput }

/-- The registry of live instances, keyed by window label, as owned by the
backend; `init` computes the effective config and replaces any instance
stored under the same key. -/
def Registry : Type := List (String × MpvConfig)

/-- The `init` step: merge the caller's config with the defaults and store
the instance under its key, replacing a previous instance with the same
key.  Returns the new registry together with the effective configuration
sent to the backend. -/
def initStep (st : Registry) (c : MpvConfig) (key : String) :
    Registry × MpvConfig :=
  let eff := mergeConfig c
  ((key, eff) :: st.filter (fun e => e.1 ≠ key), eff)

section CommandDispatch

/-- The first argument of the overloaded `command` entry point in
`guest-js/index.ts`: either a command name (string) or a full `MpvCommand`
object. -/
inductive CommandArg1 where
  | name (s : String)
  | cmd (c : MpvCommand)


/-- The second argument of `command`: `unknown[] | string | undefined`.
`inl` is the array case, `inr` the string case, `none` absence. -/
def CommandArg2 : Type := Option (List JVal ⊕ String)

/-- The argument dispatch at the top of `command` in `guest-js/index.ts`
(lines 707-731): computes `finalMpvCommand`, `finalWindowLabel` (before
defaulting to the current window) and the `isShortcut` flag. -/
def commandDispatch (arg1 : CommandArg1) (arg2 : CommandArg2)
    (arg3 : Option String) : MpvCommand × Option String × Bool :=
  match arg1 with
  | .name n =>
      let args : List JVal :=
        match arg2 with
        | some (Sum.inl l) => l
        | _ => []
      let lbl : Option String :=
        match arg2 with
        | some (Sum.inl _) => arg3
        | some (Sum.inr s) => some s
        | none => none
      ({ command := JVal.str n :: args }, lbl, true)
  | .cmd c =>
      let lbl : Option String :=
        match arg2 with
        | some (Sum.inr s) => some s
        | _ => none
      (c, lbl, false)

/-- What `command` hands back to its caller: the unwrapped `data` field in
shortcut form, or the full response object in object form. -/
inductive CommandOutcome where
  | shortcutData (d : Option JVal)
  | fullResponse (r : MpvCommandResponse)


/-- The response handling at the bottom of `command` in `guest-js/index.ts`
(lines 738-745): in shortcut form a non-"success" status is converted into
a thrown `Error` carrying the engine's error string and a success resolves
with `response.data`; in object form the full response is returned
untouched. -/
def commandResult (isShortcut : Bool) (response : MpvCommandResponse) :
    Except String CommandOutcome :=
  if isShortcut then
    if response.error ≠ "success" then
      Except.error ("mpv command failed: " ++ response.error)
    else
      Except.ok (CommandOutcome.shortcutData response.data)
  else
    Except.ok (CommandOutcome.fullResponse response)

/-- The whole `command` entry point, parametrised by the engine (the
backend `invoke` boundary): dispatch the arguments, default the window
label to the current window's label, send the wire command, handle the
response. -/
def commandRun (engine : MpvCommand → String → MpvCommandResponse)
    (currentLabel : String) (arg1 : CommandArg1) (arg2 : CommandArg2)
    (arg3 : Option String) : Except String CommandOutcome :=
  let d := commandDispatch arg1 arg2 arg3
  let lbl := d.2.1.getD currentLabel
  commandResult d.2.2 (engine d.1 lbl)

/-- `getProperty` from `guest-js/index.ts` (lines 768-777): literally
`command('get_property', [name], windowLabel)`. -/
def getPropertyRun (engine : MpvCommand → String → MpvCommandResponse)
    (currentLabel : String) (name : String) (windowLabel : Option String) :
    Except String CommandOutcome :=
  commandRun engine currentLabel (CommandArg1.name "get_property")
    (some (Sum.inl [JVal.str name])) windowLabel

/-- `setProperty` from `guest-js/index.ts` (lines 800-809):
`command('set_property', [name, value], windowLabel)` with the result
discarded (the promise resolves with `void`). -/
def setPropertyRun (engine : MpvCommand → String → MpvCommandResponse)
    (currentLabel : String) (name : String) (value : JVal)
    (windowLabel : Option String) : Except String Unit :=
  (commandRun engine currentLabel (CommandArg1.name "set_property")
    (some (Sum.inl [JVal.str name, value])) windowLabel).map (fun _ => ())

end CommandDispatch

section EventRouting

/-- The tagged event union (`MpvEvent` in `guest-js/types.ts`): the only
variant the verified code inspects structurally is `property-change`, which
carries a property name and its new value; all other kinds are represented
by their tag string. -/
inductive MpvEvent where
  | propertyChange (name : String) (data : JVal)
  | otherKind (tag : String)

/-- The `event` tag string of an event, as compared against
`'property-change'` in `observeProperties`. -/
def MpvEvent.tag : MpvEvent → String
  | .propertyChange _ _ => "property-change"
  | .otherKind t => t

/-- The channel name computed by `listenEvents` in `guest-js/index.ts`
(line 628): the template literal `mpv-event-$\x7bwindowLabel\x7d`. -/
def eventChannel (windowLabel : String) : String :=
  "mpv-event-" ++ windowLabel

/-- The channel `listenEvents` subscribes to, after defaulting the window
label to the current window's label (lines 626-630). -/
def listenEventsChannel (windowLabel : Option String)
    (currentLabel : String) : String :=
  eventChannel (windowLabel.getD currentLabel)

/-- The backend emits each instance's events on that instance's own channel
(`mpv-event-` followed by the owning window label); a tauri listener
subscribed to a channel receives exactly the payloads emitted on that
channel, in emission order.  `traffic` is an arbitrary interleaving of
(owning instance key, event) pairs. -/
def deliveredEvents (subscribedChannel : String)
    (traffic : List (String × MpvEvent)) : List MpvEvent :=
  traffic.filterMap (fun p =>
    if eventChannel p.1 = subscribedChannel then some p.2 else none)

/-- The filtering wrapper that `observeProperties` in `guest-js/index.ts`
(lines 572-581) installs around the caller's callback: the callback fires
exactly when the delivered event's tag is `'property-change'` and its name
is contained in the effective property list. -/
def observeFilter (properties : List String) (e : MpvEvent) : Bool :=
  match e with
  | .propertyChange name _ => properties.contains name
  | .otherKind _ => false

/-- The argument dispatch of the overloaded `observeProperties`
(lines 553-570): a function first argument means no explicit property list
was given and `COMMON_PROPERTIES` is used; otherwise the caller's list is
used. -/
inductive ObserveArgs where
  | explicit (properties : List String)
  | defaulted

/-- The effective property list chosen by `observeProperties`. -/
def observeEffectiveProperties : ObserveArgs → List String
  | .explicit ps => ps
  | .defaulted => COMMON_PROPERTIES

/-- The events a listener registered through `observeProperties` actually
has its callback invoked on, given the traffic of all instances:
`listenEvents` delivery on the subscribed channel composed with the
property-change filter. -/
def observedCallbackEvents (a : ObserveArgs) (windowLabel : Option String)
    (currentLabel : String) (traffic : List (String × MpvEvent)) :
    List MpvEvent :=
  (deliveredEvents (listenEventsChannel windowLabel currentLabel) traffic).filter
    (observeFilter (observeEffectiveProperties a))

end EventRouting

section PlayerReducer

/-- `Connection` from `src/hooks/usePlayer.ts`:
`'pending' | 'connected' | 'error'`. -/
inductive Connection where
  | pending
  | connected
  | error
  deriving Repr, DecidableEq

/-- `PlaylistItem` from `src/hooks/usePlayer.ts`. -/
structure PlaylistItem where
  current : Option Bool := none
  filename : String
  id : Int
  playing : Option Bool := none
  playlistPath : Option String := none
  deriving Repr, DecidableEq

/-- The `data` payload of an mpv event in `src/hooks/usePlayer.ts`:
`string | number | boolean | PlaylistItem[] | null`. -/
inductive EventData where
  | str (s : String)
  | num (n : Int)
  | bool (b : Bool)
  | items (l : List PlaylistItem)
  | null
  deriving Repr, DecidableEq

/-- `MpvEventType` from `src/hooks/usePlayer.ts`. -/
inductive MpvEventType where
  | propertyChange
  | fileLoaded
  | endFile
  deriving Repr, DecidableEq

/-- `MpvEventName` from `src/hooks/usePlayer.ts`: the observed property
names the reducer switches on. -/
inductive MpvEventName where
  | playlist
  | filename
  | pause
  | eofReached
  | timePos
  | duration
  deriving Repr, DecidableEq

/-- `MpvEventPayload` from `src/hooks/usePlayer.ts`: `name` is nullable. -/
structure MpvEventPayload where
  event_type : MpvEventType
  name : Option MpvEventName
  data : EventData
  deriving Repr, DecidableEq

/-- `PlayerState` from `src/hooks/usePlayer.ts`; playback times are the
JavaScript numbers stored by the reducer, modelled as integers (the reducer
only stores incoming values and the constant 0). -/
structure PlayerState where
  connection : Connection
  isPaused : Bool
  playlist : List PlaylistItem
  currentFile : Option String
  eofReached : Bool
  timePos : Int
  duration : Int
  isFullscreen : Bool
  deriving Repr, DecidableEq

/-- The initial state passed to `useState` in `usePlayer`. -/
def initialPlayerState : PlayerState :=
  { connection := Connection.pending
  , isPaused := true
  , currentFile := none
  , playlist := []
  , eofReached := false
  , timePos := 0
  , duration := 0
  , isFullscreen := false }

/-- `Array.isArray(data) ? data : []` -/
def EventData.asItems : EventData → List PlaylistItem
  | .items l => l
  | _ => []

/-- `typeof data === 'string' ? data : null` -/
def EventData.asString : EventData → Option String
  | .str s => some s
  | _ => none

/-- `typeof data === 'boolean' ? data : dflt` -/
def EventData.asBool (dflt : Bool) : EventData → Bool
  | .bool b => b
  | _ => dflt

/-- `typeof data === 'number' ? data : dflt` -/
def EventData.asNum (dflt : Int) : EventData → Int
  | .num n => n
  | _ => dflt

/-- The `setState` updater run by `usePlayer` for each received
`mpv-event` (lines 81-135 of `src/hooks/usePlayer.ts`).  It first marks
the connection as connected when it is not already, then folds the event
into the state.  (The `file-loaded' branch additionally fires the `play`
action, a command side effect that does not touch the updater's state.) -/
def eventStep (prev : PlayerState) (p : MpvEventPayload) : PlayerState :=
  let s0 :=
    if prev.connection ≠ Connection.connected then
      { prev with connection := Connection.connected }
    else prev
  match p.event_type with
  | .propertyChange =>
      match p.name with
      | some .playlist => { s0 with playlist := p.data.asItems }
      | some .filename => { s0 with currentFile := p.data.asString }
      | some .pause => { s0 with isPaused := p.data.asBool true }
      | some .eofReached => { s0 with eofReached := p.data.asBool false }
      | some .timePos => { s0 with timePos := p.data.asNum s0.timePos }
      | some .duration => { s0 with duration := p.data.asNum s0.duration }
      | none => s0
  | .fileLoaded => s0
  | .endFile =>
      { s0 with
        eofReached := true
      , currentFile := none
      , timePos := 0
      , duration := 0 }

/-- The connection-only effect of receiving any mpv event (the
`if (newStatus.connection !== 'connected')` guard at lines 84-87). -/
def connEventStep (c : Connection) : Connection :=
  if c ≠ Connection.connected then Connection.connected else c

/-- The 5-second startup timeout of `usePlayer` (lines 143-157): when it
fires while the connection is still pending the state moves to error;
otherwise the state is returned unchanged. -/
def connTimeoutStep (c : Connection) : Connection :=
  if c = Connection.pending then Connection.error else c

/-- One scheduler step of the connection state: either some mpv event is
received or the startup timeout fires. -/
inductive ConnStep where
  | event
  | timeout
  deriving Repr, DecidableEq

/-- Apply one connection step. -/
def applyConnStep (c : Connection) : ConnStep → Connection
  | .event => connEventStep c
  | .timeout => connTimeoutStep c

/-- Apply a sequence of connection steps, left to right. -/
def applyConnSteps (c : Connection) : List ConnStep → Connection
  | [] => c
  | s :: rest => applyConnSteps (applyConnStep c s) rest

end PlayerReducer

section Correlator

/-- The four outcomes a caller of `call` can observe for one Command. -/
inductive Outcome where
  | success (payload : Option JVal)
  | cmdError (msg : String)
  | timeout
  | destroyed

/-- The outcome's kind, for stating that outcomes are compared only by
which of the four branches fired. -/
def Outcome.isDestroyed : Outcome → Bool
  | .destroyed => true
  | _ => false

/-- Modelled from the spec: the RequestCorrelator state of one Instance
(the Rust backend that owns the pending-request map is not part of the
checked-in sources; §3 and §4.3 of the spec describe it).  `pending` is the
pending-request map, one entry per outstanding request id with its
deadline; `resolved` is the log of resolutions already delivered to
callers, in delivery order. -/
structure CorrState where
  pending : List (Nat × Nat)
  resolved : List (Nat × Outcome)

/-- Modelled from the spec: the three resolution sources of §4.3 — (a) a
Transport-delivered reply carrying a request id, error status and payload,
(b) the deadline of an id elapsing, (c) the owning Instance being
destroyed. -/
inductive CorrEvent where
  | reply (id : Nat) (error : String) (data : Option JVal)
  | deadline (id : Nat)
  | destroy

/-- Number of pending-map entries for a given id. -/
def pendingCount (id : Nat) (st : CorrState) : Nat :=
  (st.pending.filter (fun e => e.1 = id)).length

/-- The resolutions delivered to the caller of request `id`, in order. -/
def resolutionsFor (id : Nat) (st : CorrState) : List Outcome :=
  st.resolved.filterMap (fun e => if e.1 = id then some e.2 else none)

/-- Modelled from the spec: one step of the RequestCorrelator (§4.3).  A
reply or elapsed deadline whose id still has a pending entry removes that
entry and appends exactly one resolution for it (success/command error for
a reply, timeout for a deadline); when the entry is already gone the step
is a no-op.  Destroy removes every pending entry and fails each of them
with the destroyed outcome. -/
def corrStep (st : CorrState) : CorrEvent → CorrState
  | .reply id err data =>
      if st.pending.any (fun e => e.1 = id) then
        { pending := st.pending.filter (fun e => ¬ e.1 = id)
        , resolved := st.resolved ++
            [(id, if err = "success" then Outcome.success data
                  else Outcome.cmdError err)] }
      else st
  | .deadline id =>
      if st.pending.any (fun e => e.1 = id) then
        { pending := st.pending.filter (fun e => ¬ e.1 = id)
        , resolved := st.resolved ++ [(id, Outcome.timeout)] }
      else st
  | .destroy =>
      { pending := []
      , resolved := st.resolved ++
          st.pending.map (fun e => (e.1, Outcome.destroyed)) }

/-- Apply a sequence of correlator events, left to right (an arbitrary
interleaving of replies, deadline firings and a destroy). -/
def corrRun (st : CorrState) : List CorrEvent → CorrState
  | [] => st
  | ev :: rest => corrRun (corrStep st ev) rest

/-- Whether a correlator event resolves the given id when its entry is
still pending: a matching reply, a matching deadline, or a destroy. -/
def CorrEvent.resolves (id : Nat) : CorrEvent → Bool
  | .reply i _ _ => i = id
  | .deadline i => i = id
  | .destroy => true

/-- The outcome a resolving correlator event delivers to the caller: a
reply delivers the success payload or the engine's command error, an
elapsed deadline delivers the timeout error, a destroy delivers the
destroyed error. -/
def CorrEvent.outcomeFor : CorrEvent → Outcome
  | .reply _ err data =>
      if err = "success" then Outcome.success data else Outcome.cmdError err
  | .deadline _ => Outcome.timeout
  | .destroy => Outcome.destroyed

end Correlator

section Effects

/-- The externally visible actions a guest-side API call performs: one
backend `invoke` per command sent, one channel subscription per event
listener installed. -/
inductive Effect where
  | invoked (cmd : MpvCommand) (label : String)
  | subscribed (channel : String)

/-- Whether an effect is a channel subscription. -/
def Effect.isSubscription : Effect → Bool
  | .invoked _ _ => false
  | .subscribed _ => true

/-- The effect trace of one `command` call: exactly one backend invoke of
the dispatched wire command on the dispatched (or defaulted) window
label.  `command` installs no event listener. -/
def commandEffects (arg1 : CommandArg1) (arg2 : CommandArg2)
    (arg3 : Option String) (currentLabel : String) : List Effect :=
  let d := commandDispatch arg1 arg2 arg3
  [Effect.invoked d.1 (d.2.1.getD currentLabel)]

/-- The effect trace of one `listenEvents` call: exactly one subscription,
to the per-instance channel. -/
def listenEventsEffects (windowLabel : Option String)
    (currentLabel : String) : List Effect :=
  [Effect.subscribed (listenEventsChannel windowLabel currentLabel)]

/-- The effect trace of `getProperty`: it is one `command` call. -/
def getPropertyEffects (name : String) (windowLabel : Option String)
    (currentLabel : String) : List Effect :=
  commandEffects (CommandArg1.name "get_property")
    (some (Sum.inl [JVal.str name])) windowLabel currentLabel

/-- The effect trace of `setProperty`: it is one `command` call. -/
def setPropertyEffects (name : String) (value : JVal)
    (windowLabel : Option String) (currentLabel : String) : List Effect :=
  commandEffects (CommandArg1.name "set_property")
    (some (Sum.inl [JVal.str name, value])) windowLabel currentLabel

end Effects

/-! ## Theorems -/

/-- C5: for every caller-supplied configuration object, the effective
configuration produced by `init` assigns to each recognized option the
caller's value when the caller's object contains that field, and the
process-wide default value otherwise; the defaults are a fixed pure value
(spelled out literally below), and the effective configuration computed by
`initStep` depends only on the caller's config, not on the registry left
behind by earlier `init` calls. -/
theorem init_config_merges_defaults_per_call (c : MpvConfig) :
    (∀ st st' key key',
      (initStep st c key).2 = mergeConfig c ∧
      (initStep st c key).2 = (initStep st' c key').2) ∧
    ((∀ v, c.mpvPath = some v → (mergeConfig c).mpvPath = some v) ∧
      (c.mpvPath = none → (mergeConfig c).mpvPath = DEFAULT_MPV_CONFIG.mpvPath)) ∧
    ((∀ v, c.args = some v → (mergeConfig c).args = some v) ∧
      (c.args = none → (mergeConfig c).args = DEFAULT_MPV_CONFIG.args)) ∧
    ((∀ v, c.observedProperties = some v →
        (mergeConfig c).observedProperties = some v) ∧
      (c.observedProperties = none →
        (mergeConfig c).observedProperties = DEFAULT_MPV_CONFIG.observedProperties)) ∧
    ((∀ v, c.ipcTimeoutMs = some v → (mergeConfig c).ipcTimeoutMs = some v) ∧
      (c.ipcTimeoutMs = none →
        (mergeConfig c).ipcTimeoutMs = DEFAULT_MPV_CONFIG.ipcTimeoutMs)) ∧
    ((∀ v, c.showMpvOutput = some v → (mergeConfig c).showMpvOutput = some v) ∧
      (c.showMpvOutput = none →
        (mergeConfig c).showMpvOutput = DEFAULT_MPV_CONFIG.showMpvOutput)) ∧
    DEFAULT_MPV_CONFIG =
      { mpvPath := none
      , args := some
          [ "--vo=gpu-next"
          , "--hwdec=auto-safe"
          , "--keep-open=yes"
          , "--force-window" ]
      , observedProperties := some COMMON_PROPERTIES
      , ipcTimeoutMs := some 2000
      , showMpvOutput := some false } := by
  refine ⟨fun st st' key key' => ⟨rfl, rfl⟩,
    ⟨fun v h => ?_, fun h => ?_⟩, ⟨fun v h => ?_, fun h => ?_⟩,
    ⟨fun v h => ?_, fun h => ?_⟩, ⟨fun v h => ?_, fun h => ?_⟩,
    ⟨fun v h => ?_, fun h => ?_⟩, rfl⟩ <;>
    simp [mergeConfig, spreadField, h]

/-- Witness for C5: the merge evaluated at a concrete caller config that
sets `ipcTimeoutMs` but omits `args`. -/
theorem init_config_merges_defaults_per_call_witness :
    (mergeConfig { ipcTimeoutMs := some 500 }).ipcTimeoutMs = some 500 ∧
    (mergeConfig { ipcTimeoutMs := some 500 }).args = DEFAULT_MPV_CONFIG.args :=
  ⟨(init_config_merges_defaults_per_call
      { ipcTimeoutMs := some 500 }).2.2.2.2.1.1 500 rfl,
    (init_config_merges_defaults_per_call
      { ipcTimeoutMs := some 500 }).2.2.1.2 rfl⟩

/-- C6: when the caller specifies no observed-property list, the merged
configuration observes exactly the nine default properties, in order. -/
theorem default_observed_properties (c : MpvConfig)
    (h : c.observedProperties = none) :
    (mergeConfig c).observedProperties = some
      [ "playlist"
      , "filename"
      , "pause"
      , "eof-reached"
      , "time-pos"
      , "duration"
      , "volume"
      , "mute"
      , "speed" ] := by
  simp [mergeConfig, spreadField, h, DEFAULT_MPV_CONFIG, COMMON_PROPERTIES]

/-- Witness for C6: the empty caller config. -/
theorem default_observed_properties_witness :
    (mergeConfig {}).observedProperties = some
      [ "playlist"
      , "filename"
      , "pause"
      , "eof-reached"
      , "time-pos"
      , "duration"
      , "volume"
      , "mute"
      , "speed" ] :=
  default_observed_properties {} rfl

/-- C10: in the convenience form of `command`, a string second argument is
taken as the target window label and the wire command carries an empty
argument list (the string never becomes a command argument); an array
second argument is always taken as the argument list, with the label read
from the third argument. -/
theorem command_string_second_arg_is_label (name lbl : String)
    (args : List JVal) (arg3 : Option String) :
    commandDispatch (CommandArg1.name name) (some (Sum.inr lbl)) arg3 =
      ({ command := [JVal.str name], request_id := none }, some lbl, true) ∧
    commandDispatch (CommandArg1.name name) (some (Sum.inl args)) arg3 =
      ({ command := JVal.str name :: args, request_id := none }, arg3, true) ∧
    commandDispatch (CommandArg1.name name) none arg3 =
      ({ command := [JVal.str name], request_id := none }, none, true) := by
  exact ⟨rfl, rfl, rfl⟩

/-- C2: the convenience string form of `command` sends the wire object
whose command array is the name followed by the arguments; on a response
whose error status is "success" it resolves with exactly the response's
data field, and on any other status it throws an error carrying the
engine's error string.  The object form resolves with the full response
object without throwing, whatever the status. -/
theorem command_shortcut_and_object_form (name : String) (args : List JVal)
    (arg3 : Option String) (engine : MpvCommand → String → MpvCommandResponse)
    (cur : String) (c : MpvCommand) (arg2 : CommandArg2)
    (resp : MpvCommandResponse) :
    (commandDispatch (CommandArg1.name name) (some (Sum.inl args)) arg3).1 =
      { command := JVal.str name :: args, request_id := none } ∧
    commandRun engine cur (CommandArg1.name name) (some (Sum.inl args)) arg3 =
      commandResult true
        (engine { command := JVal.str name :: args, request_id := none }
          (arg3.getD cur)) ∧
    (resp.error = "success" →
      commandResult true resp = Except.ok (CommandOutcome.shortcutData resp.data)) ∧
    (resp.error ≠ "success" →
      commandResult true resp =
        Except.error ("mpv command failed: " ++ resp.error)) ∧
    commandResult false resp = Except.ok (CommandOutcome.fullResponse resp) ∧
    (commandDispatch (CommandArg1.cmd c) arg2 arg3).1 = c ∧
    (commandDispatch (CommandArg1.cmd c) arg2 arg3).2.2 = false := by
  refine ⟨rfl, rfl, ?_, ?_, rfl, ?_, ?_⟩
  · intro h; simp [commandResult, h]
  · intro h; simp [commandResult, h]
  · cases arg2 with
    | none => rfl
    | some v => cases v <;> rfl
  · cases arg2 with
    | none => rfl
    | some v => cases v <;> rfl

/-- Witness for C2: a success response with payload 7 and a failing
response with status "error running command", through a concrete engine. -/
theorem command_shortcut_and_object_form_witness :
    commandResult true
        { data := some (JVal.num 7), error := "success", request_id := 1 } =
      Except.ok (CommandOutcome.shortcutData (some (JVal.num 7))) ∧
    commandResult true
        { data := none, error := "error running command", request_id := 2 } =
      Except.error "mpv command failed: error running command" ∧
    commandResult false
        { data := none, error := "error running command", request_id := 2 } =
      Except.ok (CommandOutcome.fullResponse
        { data := none, error := "error running command", request_id := 2 }) := by
  refine ⟨?_, ?_, ?_⟩
  · exact (command_shortcut_and_object_form "loadfile" [] none
      (fun _ _ => { data := none, error := "success", request_id := 0 }) "main"
      { command := [] } none
      { data := some (JVal.num 7), error := "success", request_id := 1 }).2.2.1 rfl
  · exact (command_shortcut_and_object_form "loadfile" [] none
      (fun _ _ => { data := none, error := "success", request_id := 0 }) "main"
      { command := [] } none
      { data := none, error := "error running command", request_id := 2 }).2.2.2.1
      (by simp)
  · exact (command_shortcut_and_object_form "loadfile" [] none
      (fun _ _ => { data := none, error := "success", request_id := 0 }) "main"
      { command := [] } none
      { data := none, error := "error running command", request_id := 2 }).2.2.2.2.1

/-- C9: processing an end-file event yields a state with `eofReached`
true, no current file, zeroed position and duration and a connected
connection, and leaves `isPaused`, `playlist` and `isFullscreen` exactly
as they were. -/
theorem end_file_event_frame (prev : PlayerState) (n : Option MpvEventName)
    (d : EventData) :
    eventStep prev { event_type := MpvEventType.endFile, name := n, data := d } =
      { connection := Connection.connected
      , isPaused := prev.isPaused
      , playlist := prev.playlist
      , currentFile := none
      , eofReached := true
      , timePos := 0
      , duration := 0
      , isFullscreen := prev.isFullscreen } := by
  cases prev with
  | mk conn ip pl cf eof tp du fs => cases conn <;> simp [eventStep]

/-- C8 counterexample: the claim says the connection only ever moves
Pending to Connected or Pending to Error, but the event step moves the
Error state — which is not Pending — to Connected, because the reducer
marks the connection connected on any received event whenever it is not
already connected. -/
theorem conn_event_step_moves_error_to_connected :
    connEventStep Connection.error = Connection.connected ∧
    Connection.error ≠ Connection.pending ∧
    Connection.connected ≠ Connection.error := by
  refine ⟨rfl, ?_, ?_⟩ <;> decide

/-- C8 amended: the event step moves any state that is not Connected
(Pending or Error alike) to Connected and leaves Connected unchanged; the
timeout step moves Pending to Error and leaves any non-Pending state
unchanged; and under every sequence of event and timeout steps the state
is Pending afterwards only when it was Pending and no step ran at all, so
a state that has reached Connected or Error is never moved back to
Pending. -/
theorem connection_state_machine (c : Connection) (steps : List ConnStep) :
    connEventStep Connection.pending = Connection.connected ∧
    connEventStep Connection.error = Connection.connected ∧
    connEventStep Connection.connected = Connection.connected ∧
    connTimeoutStep Connection.pending = Connection.error ∧
    (c ≠ Connection.pending → connTimeoutStep c = c) ∧
    (applyConnSteps c steps = Connection.pending ↔
      (c = Connection.pending ∧ steps = [])) := by
  have stepNotPending : ∀ (d : Connection) (s : ConnStep),
      applyConnStep d s ≠ Connection.pending := by
    intro d s
    cases s <;> cases d <;> simp [applyConnStep, connEventStep, connTimeoutStep]
  refine ⟨rfl, rfl, rfl, rfl, ?_, ?_⟩
  · intro h; cases c <;> simp_all [connTimeoutStep]
  · constructor
    · intro h
      cases steps with
      | nil => exact ⟨h, rfl⟩
      | cons s rest =>
          exfalso
          have tail : ∀ (rest : List ConnStep) (d : Connection),
              d ≠ Connection.pending →
              applyConnSteps d rest ≠ Connection.pending := by
            intro rest
            induction rest with
            | nil => intro d hd; simpa [applyConnSteps] using hd
            | cons s2 rest2 ih =>
                intro d _
                exact ih (applyConnStep d s2) (stepNotPending d s2)
          exact tail rest (applyConnStep c s) (stepNotPending c s) h
    · rintro ⟨h1, h2⟩
      simp [h1, h2, applyConnSteps]

/-- Witness for C8 amended: the connected state, with one timeout step. -/
theorem connection_state_machine_witness :
    connTimeoutStep Connection.connected = Connection.connected ∧
    (applyConnSteps Connection.connected [ConnStep.timeout] =
        Connection.pending ↔
      (Connection.connected = Connection.pending ∧
        ([ConnStep.timeout] : List ConnStep) = [])) :=
  ⟨(connection_state_machine Connection.connected [ConnStep.timeout]).2.2.2.2.1
      (by decide),
    (connection_state_machine Connection.connected [ConnStep.timeout]).2.2.2.2.2⟩

/-- C7: `getProperty` is observationally the convenience command
`get_property` with the property name as sole argument — same result
(unwrapped data on success, thrown engine error otherwise) and same effect
trace; `setProperty` is the convenience command `set_property` with name
and value, its result discarded; and neither call's effect trace contains
a channel subscription, so the observation subscription is untouched. -/
theorem get_set_property_are_commands
    (engine : MpvCommand → String → MpvCommandResponse)
    (cur name : String) (value : JVal) (lbl : Option String) :
    getPropertyRun engine cur name lbl =
      commandRun engine cur (CommandArg1.name "get_property")
        (some (Sum.inl [JVal.str name])) lbl ∧
    setPropertyRun engine cur name value lbl =
      (commandRun engine cur (CommandArg1.name "set_property")
        (some (Sum.inl [JVal.str name, value])) lbl).map (fun _ => ()) ∧
    getPropertyEffects name lbl cur =
      commandEffects (CommandArg1.name "get_property")
        (some (Sum.inl [JVal.str name])) lbl cur ∧
    setPropertyEffects name value lbl cur =
      commandEffects (CommandArg1.name "set_property")
        (some (Sum.inl [JVal.str name, value])) lbl cur ∧
    (∀ e ∈ getPropertyEffects name lbl cur, e.isSubscription = false) ∧
    (∀ e ∈ setPropertyEffects name value lbl cur, e.isSubscription = false) := by
  refine ⟨rfl, rfl, rfl, rfl, ?_, ?_⟩ <;>
    · intro e he
      simp [getPropertyEffects, setPropertyEffects, commandEffects] at he
      simp [he, Effect.isSubscription]

/-- Witness for C7: concrete property reads and writes through a concrete
engine. -/
theorem get_set_property_are_commands_witness :
    getPropertyRun
        (fun _ _ =>
          { data := some (JVal.num 42), error := "success", request_id := 0 })
        "main" "volume" none =
      commandRun
        (fun _ _ =>
          { data := some (JVal.num 42), error := "success", request_id := 0 })
        "main" (CommandArg1.name "get_property")
        (some (Sum.inl [JVal.str "volume"])) none ∧
    (∀ e ∈ getPropertyEffects "volume" none "main",
      e.isSubscription = false) :=
  ⟨(get_set_property_are_commands
      (fun _ _ =>
          { data := some (JVal.num 42), error := "success", request_id := 0 })
      "main" "volume" (JVal.num 0) none).1,
    (get_set_property_are_commands
      (fun _ _ =>
          { data := some (JVal.num 42), error := "success", request_id := 0 })
      "main" "volume" (JVal.num 0) none).2.2.2.2.1⟩

/-- Appending distinct strings to the fixed channel name stem yields
distinct channel names. -/
theorem eventChannel_inj {a b : String} (h : eventChannel a = eventChannel b) :
    a = b := by
  have hd := congrArg String.data h
  simp only [eventChannel, String.data_append] at hd
  exact String.ext (List.append_cancel_left hd)

/-- The wrapper installed by `observeProperties` fires exactly on
property-change events whose name is in the effective list. -/
theorem observeFilter_eq_true_iff (ps : List String) (e : MpvEvent) :
    observeFilter ps e = true ↔
      ∃ n d, e = MpvEvent.propertyChange n d ∧ n ∈ ps := by
  cases e with
  | propertyChange n d =>
      simp only [observeFilter, List.elem_eq_mem, List.contains,
        decide_eq_true_eq, MpvEvent.propertyChange.injEq]
      constructor
      · intro h; exact ⟨n, d, ⟨rfl, rfl⟩, h⟩
      · rintro ⟨n2, d2, ⟨hn, hd⟩, hmem⟩; subst hn; exact hmem
  | otherKind t => simp [observeFilter]

/-- C3 counterexample: the claim says a listener registered with only a
callback receives property-change events for the Instance's full
configured observed-property set, but `observeProperties` filters by the
module constant `COMMON_PROPERTIES` and never consults the instance's
configuration.  Concretely: an instance configured to observe
`percent-pos` (a real mpv property outside the common set) has
`percent-pos` in its full configured set, yet the defaulted listener's
filter does not fire on a delivered `percent-pos` property-change
event. -/
theorem observe_defaulted_drops_configured_property :
    (mergeConfig { observedProperties := some ["percent-pos"] }).observedProperties =
      some ["percent-pos"] ∧
    "percent-pos" ∈ ["percent-pos"] ∧
    observeFilter (observeEffectiveProperties ObserveArgs.defaulted)
      (MpvEvent.propertyChange "percent-pos" JVal.null) = false := by
  refine ⟨rfl, by simp, ?_⟩
  rfl

/-- C3 amended: a listener registered through `observeProperties` with an
explicit property list has its callback invoked exactly on those delivered
events that are property-change events whose name is in that list — never
on other event kinds or other property names; a listener registered with
only a callback is filtered by the hard-coded common set
`COMMON_PROPERTIES` (not the Instance's configured observed-property
set), so its callback fires on property-change events for exactly the
common set. -/
theorem observe_properties_filters_by_name (ps : List String)
    (lbl : Option String) (cur : String)
    (traffic : List (String × MpvEvent)) (e : MpvEvent) (name t : String)
    (d : JVal) :
    observeFilter ps (MpvEvent.propertyChange name d) = ps.contains name ∧
    observeFilter ps (MpvEvent.otherKind t) = false ∧
    (e ∈ observedCallbackEvents (ObserveArgs.explicit ps) lbl cur traffic ↔
      e ∈ deliveredEvents (listenEventsChannel lbl cur) traffic ∧
        ∃ n2 d2, e = MpvEvent.propertyChange n2 d2 ∧ n2 ∈ ps) ∧
    observeEffectiveProperties ObserveArgs.defaulted = COMMON_PROPERTIES ∧
    observedCallbackEvents ObserveArgs.defaulted lbl cur traffic =
      observedCallbackEvents (ObserveArgs.explicit COMMON_PROPERTIES)
        lbl cur traffic := by
  refine ⟨rfl, rfl, ?_, rfl, rfl⟩
  simp [observedCallbackEvents, List.mem_filter, observeEffectiveProperties,
    observeFilter_eq_true_iff]

/-- The tauri listener on an instance's channel receives exactly the
events emitted for that instance, in emission order. -/
theorem deliveredEvents_eq_filter_by_key (A : String)
    (traffic : List (String × MpvEvent)) :
    deliveredEvents (eventChannel A) traffic =
      (traffic.filter (fun p => p.1 = A)).map Prod.snd := by
  induction traffic with
  | nil => rfl
  | cons p rest ih =>
      by_cases hk : p.1 = A
      · simp [deliveredEvents, List.filterMap_cons, List.filter_cons, hk] at ih ⊢
        exact ih
      · have hch : ¬ eventChannel p.1 = eventChannel A := fun hc => hk (eventChannel_inj hc)
        simp [deliveredEvents, List.filterMap_cons, List.filter_cons, hk, hch] at ih ⊢
        exact ih

/-- C4: a listener registered via `listenEvents` under key A subscribes
only to the channel named for A, receives exactly the events emitted for
A in order, and receives nothing from the traffic of any other key B,
under any interleaving. -/
theorem listen_events_isolated_per_instance (A B cur : String)
    (traffic : List (String × MpvEvent)) :
    listenEventsChannel (some A) cur = eventChannel A ∧
    listenEventsEffects (some A) cur =
      [Effect.subscribed (eventChannel A)] ∧
    deliveredEvents (eventChannel A) traffic =
      (traffic.filter (fun p => p.1 = A)).map Prod.snd ∧
    (A ≠ B →
      deliveredEvents (eventChannel A) (traffic.filter (fun p => p.1 = B)) = []) := by
  refine ⟨rfl, rfl, deliveredEvents_eq_filter_by_key A traffic, ?_⟩
  intro hAB
  rw [deliveredEvents_eq_filter_by_key]
  have hnil : (traffic.filter (fun p => p.1 = B)).filter
      (fun p => decide (p.1 = A)) = [] := by
    refine List.filter_eq_nil_iff.mpr ?_
    intro a ha
    have hB : a.1 = B := by
      have := List.mem_filter.mp ha
      simpa using this.2
    simp only [decide_eq_true_eq]
    intro hA
    exact hAB (hA.symm.trans hB)
  rw [hnil, List.map_nil]

/-- Witness for C4: two concrete instances and interleaved traffic. -/
theorem listen_events_isolated_per_instance_witness :
    deliveredEvents (eventChannel "main")
        ((([("main", MpvEvent.otherKind "seek"),
            ("side", MpvEvent.otherKind "shutdown"),
            ("main", MpvEvent.propertyChange "pause" (JVal.bool true))] :
          List (String × MpvEvent)).filter (fun p => p.1 = "side"))) = [] :=
  (listen_events_isolated_per_instance "main" "side" "main"
      [("main", MpvEvent.otherKind "seek"),
        ("side", MpvEvent.otherKind "shutdown"),
        ("main", MpvEvent.propertyChange "pause" (JVal.bool true))]).2.2.2
    (by decide)

/-- Filtering out one key and then filtering for a key: nothing is left
when the keys agree, and the other filter is untouched otherwise. -/
theorem length_filter_eq_of_filter_ne (l : List (Nat × Nat)) (id idr : Nat) :
    ((l.filter fun e => ¬ e.1 = idr).filter fun e => e.1 = id).length =
      if id = idr then 0 else (l.filter fun e => e.1 = id).length := by
  by_cases hid : id = idr
  · subst hid
    rw [if_pos rfl]
    have hnil : ((l.filter fun e => ¬ e.1 = id).filter fun e => e.1 = id) = [] := by
      refine List.filter_eq_nil_iff.mpr ?_
      intro x hx
      have hmem := List.mem_filter.mp hx
      have hne : ¬ x.1 = id := of_decide_eq_true hmem.2
      simp [hne]
    rw [hnil]
    rfl
  · rw [if_neg hid, List.filter_filter]
    congr 1
    apply List.filter_congr
    intro a _
    by_cases h : a.1 = id
    · have hnr : ¬ a.1 = idr := fun hh => hid (by rw [← h, hh])
      simp [h, hnr, hid]
    · simp [h]

/-- Resolving every remaining pending entry with the destroyed outcome
contributes, for each id, exactly its pending entries. -/
theorem filterMap_key_map_destroyed (l : List (Nat × Nat)) (id : Nat) :
    ((l.map fun e => (e.1, Outcome.destroyed)).filterMap
        fun e => if e.1 = id then some e.2 else none) =
      (l.filter fun e => e.1 = id).map (fun _ => Outcome.destroyed) := by
  induction l with
  | nil => rfl
  | cons a rest ih =>
      by_cases h : a.1 = id <;>
        simp [List.filterMap_cons, List.filter_cons, h, ih]

/-- A pending map has an entry for an id exactly when its pending count
for that id is positive. -/
theorem any_key_iff_pendingCount_pos (st : CorrState) (id : Nat) :
    (st.pending.any fun e => e.1 = id) = true ↔ 0 < pendingCount id st := by
  rw [pendingCount, List.any_eq_true]
  constructor
  · rintro ⟨e, he, hk⟩
    have hmem : e ∈ st.pending.filter fun e => e.1 = id :=
      List.mem_filter.mpr ⟨he, hk⟩
    exact List.length_pos.mpr fun hnil => by simp [hnil] at hmem
  · intro h
    obtain ⟨e, he⟩ := List.exists_mem_of_ne_nil _ (List.length_pos.mp h)
    have hmem := List.mem_filter.mp he
    exact ⟨e, hmem.1, hmem.2⟩

/-- The per-step behaviour of the correlator with respect to one request
id: a non-resolving step leaves the id's pending entry and resolutions
untouched; once the id's entry is gone every step is a no-op for it; and
a resolving step taken while the entry is present removes the entry and
appends exactly one resolution, the outcome of that step. -/
theorem corrStep_pending_res (st : CorrState) (id : Nat) (ev : CorrEvent) :
    (ev.resolves id = false →
      pendingCount id (corrStep st ev) = pendingCount id st ∧
      resolutionsFor id (corrStep st ev) = resolutionsFor id st) ∧
    (pendingCount id st = 0 →
      pendingCount id (corrStep st ev) = 0 ∧
      resolutionsFor id (corrStep st ev) = resolutionsFor id st) ∧
    (pendingCount id st = 1 → ev.resolves id = true →
      pendingCount id (corrStep st ev) = 0 ∧
      resolutionsFor id (corrStep st ev) =
        resolutionsFor id st ++ [ev.outcomeFor]) := by
  cases ev with
  | reply idr err data =>
      by_cases hany : (st.pending.any fun e => e.1 = idr) = true
      · have hst : corrStep st (CorrEvent.reply idr err data) =
            { pending := st.pending.filter fun e => ¬ e.1 = idr
            , resolved := st.resolved ++
                [(idr, if err = "success" then Outcome.success data
                       else Outcome.cmdError err)] } := by
          simp only [corrStep]
          rw [if_pos hany]
        refine ⟨fun hres => ?_, fun hzero => ?_, fun hone hres => ?_⟩
        · have hne : ¬ idr = id := of_decide_eq_false hres
          constructor
          · simp only [pendingCount, hst]
            rw [length_filter_eq_of_filter_ne,
              if_neg (fun h => hne h.symm)]
          · simp [resolutionsFor, hst, List.filterMap_append, hne]
        · constructor
          · simp only [pendingCount, hst]
            rw [length_filter_eq_of_filter_ne]
            by_cases hid : id = idr
            · simp [hid]
            · simpa [hid, pendingCount] using hzero
          · by_cases hid : idr = id
            · subst hid
              have := (any_key_iff_pendingCount_pos st idr).mp hany
              omega
            · simp [resolutionsFor, hst, List.filterMap_append, hid]
        · have hid : idr = id := of_decide_eq_true hres
          subst hid
          constructor
          · simp only [pendingCount, hst]
            rw [length_filter_eq_of_filter_ne, if_pos rfl]
          · simp [resolutionsFor, hst, List.filterMap_append,
              CorrEvent.outcomeFor]
      · have hst : corrStep st (CorrEvent.reply idr err data) = st := by
          simp only [corrStep]
          rw [if_neg hany]
        refine ⟨fun _ => ⟨by rw [hst], by rw [hst]⟩,
          fun _ => ⟨?_, by rw [hst]⟩, fun hone hres => ?_⟩
        · rw [hst]; assumption
        · have hid : idr = id := of_decide_eq_true hres
          subst hid
          exact absurd ((any_key_iff_pendingCount_pos st idr).mpr (by omega))
            hany
  | deadline idr =>
      by_cases hany : (st.pending.any fun e => e.1 = idr) = true
      · have hst : corrStep st (CorrEvent.deadline idr) =
            { pending := st.pending.filter fun e => ¬ e.1 = idr
            , resolved := st.resolved ++ [(idr, Outcome.timeout)] } := by
          simp only [corrStep]
          rw [if_pos hany]
        refine ⟨fun hres => ?_, fun hzero => ?_, fun hone hres => ?_⟩
        · have hne : ¬ idr = id := of_decide_eq_false hres
          constructor
          · simp only [pendingCount, hst]
            rw [length_filter_eq_of_filter_ne,
              if_neg (fun h => hne h.symm)]
          · simp [resolutionsFor, hst, List.filterMap_append, hne]
        · constructor
          · simp only [pendingCount, hst]
            rw [length_filter_eq_of_filter_ne]
            by_cases hid : id = idr
            · simp [hid]
            · simpa [hid, pendingCount] using hzero
          · by_cases hid : idr = id
            · subst hid
              have := (any_key_iff_pendingCount_pos st idr).mp hany
              omega
            · simp [resolutionsFor, hst, List.filterMap_append, hid]
        · have hid : idr = id := of_decide_eq_true hres
          subst hid
          constructor
          · simp only [pendingCount, hst]
            rw [length_filter_eq_of_filter_ne, if_pos rfl]
          · simp [resolutionsFor, hst, List.filterMap_append,
              CorrEvent.outcomeFor]
      · have hst : corrStep st (CorrEvent.deadline idr) = st := by
          simp only [corrStep]
          rw [if_neg hany]
        refine ⟨fun _ => ⟨by rw [hst], by rw [hst]⟩,
          fun _ => ⟨?_, by rw [hst]⟩, fun hone hres => ?_⟩
        · rw [hst]; assumption
        · have hid : idr = id := of_decide_eq_true hres
          subst hid
          exact absurd ((any_key_iff_pendingCount_pos st idr).mpr (by omega))
            hany
  | destroy =>
      have hst : corrStep st CorrEvent.destroy =
          { pending := []
          , resolved := st.resolved ++
              st.pending.map fun e => (e.1, Outcome.destroyed) } := rfl
      have hres2 : resolutionsFor id (corrStep st CorrEvent.destroy) =
          resolutionsFor id st ++
            (st.pending.filter fun e => e.1 = id).map
              (fun _ => Outcome.destroyed) := by
        simp only [resolutionsFor, hst, List.filterMap_append]
        rw [filterMap_key_map_destroyed]
      refine ⟨fun hres => ?_, fun hzero => ?_, fun hone hres => ?_⟩
      · simp [CorrEvent.resolves] at hres
      · refine ⟨by simp [pendingCount, hst], ?_⟩
        have hnil : (st.pending.filter fun e => e.1 = id) = [] :=
          List.length_eq_zero.mp hzero
        rw [hres2, hnil]
        simp
      · refine ⟨by simp [pendingCount, hst], ?_⟩
        obtain ⟨a, ha⟩ := List.length_eq_one.mp (hone :
          (st.pending.filter fun e => e.1 = id).length = 1)
        rw [hres2, ha]
        simp [CorrEvent.outcomeFor]

/-- Once a request id has no pending entry, any further run of the
correlator leaves its pending count at zero and its resolutions
untouched. -/
theorem corrRun_noop (id : Nat) (evs : List CorrEvent) :
    ∀ st : CorrState, pendingCount id st = 0 →
      pendingCount id (corrRun st evs) = 0 ∧
      resolutionsFor id (corrRun st evs) = resolutionsFor id st := by
  induction evs with
  | nil => intro st h; exact ⟨h, rfl⟩
  | cons ev rest ih =>
      intro st h
      have hstep := (corrStep_pending_res st id ev).2.1 h
      have hrest := ih (corrStep st ev) hstep.1
      exact ⟨hrest.1, hrest.2.trans hstep.2⟩

/-- A run containing no step that resolves a given id leaves that id's
pending count and resolutions untouched. -/
theorem corrRun_nonresolving (id : Nat) (evs : List CorrEvent) :
    ∀ st : CorrState, (∀ e ∈ evs, e.resolves id = false) →
      pendingCount id (corrRun st evs) = pendingCount id st ∧
      resolutionsFor id (corrRun st evs) = resolutionsFor id st := by
  induction evs with
  | nil => intro st _; exact ⟨rfl, rfl⟩
  | cons ev rest ih =>
      intro st h
      have hstep := (corrStep_pending_res st id ev).1 (h ev (by simp))
      have hrest := ih (corrStep st ev) (fun e he => h e (by simp [he]))
      exact ⟨hrest.1.trans hstep.1, hrest.2.trans hstep.2⟩

/-- Conservation: while a request id has at most one pending entry, every
run preserves the sum of its resolution count and its pending count, and
keeps the pending count at most one. -/
theorem corrRun_conservation (id : Nat) (evs : List CorrEvent) :
    ∀ st : CorrState, pendingCount id st ≤ 1 →
      (resolutionsFor id (corrRun st evs)).length +
          pendingCount id (corrRun st evs) =
        (resolutionsFor id st).length + pendingCount id st ∧
      pendingCount id (corrRun st evs) ≤ 1 := by
  induction evs with
  | nil => intro st h; exact ⟨rfl, h⟩
  | cons ev rest ih =>
      intro st h
      have hcons : corrRun st (ev :: rest) = corrRun (corrStep st ev) rest :=
        rfl
      rw [hcons]
      rcases Nat.le_one_iff_eq_zero_or_eq_one.mp h with hz | ho
      · have hstep := (corrStep_pending_res st id ev).2.1 hz
        have hrest := ih (corrStep st ev) (by omega)
        refine ⟨?_, hrest.2⟩
        have hlen : (resolutionsFor id (corrStep st ev)).length =
            (resolutionsFor id st).length := by rw [hstep.2]
        omega
      · by_cases hres : ev.resolves id = true
        · have hstep := (corrStep_pending_res st id ev).2.2 ho hres
          have hrest := ih (corrStep st ev) (by omega)
          refine ⟨?_, hrest.2⟩
          have hlen : (resolutionsFor id (corrStep st ev)).length =
              (resolutionsFor id st).length + 1 := by
            rw [hstep.2]; simp
          omega
        · have hstep := (corrStep_pending_res st id ev).1
            (Bool.eq_false_iff.mpr fun hb => hres hb)
          have hrest := ih (corrStep st ev) (by omega)
          refine ⟨?_, hrest.2⟩
          have hlen : (resolutionsFor id (corrStep st ev)).length =
              (resolutionsFor id st).length := by rw [hstep.2]
          omega

/-- Runs compose. -/
theorem corrRun_append (l1 l2 : List CorrEvent) :
    ∀ st : CorrState, corrRun st (l1 ++ l2) = corrRun (corrRun st l1) l2 := by
  induction l1 with
  | nil => intro st; rfl
  | cons ev rest ih => intro st; exact ih (corrStep st ev)

/-- C1: for a command whose request is pending exactly once and not yet
resolved, every interleaving of replies, deadline firings and destroys
delivers at most one outcome and keeps the sum of delivered outcomes and
pending entries at one, so the request is resolved exactly once, never
zero times and never twice; when a resolving step occurs, the caller
observes exactly the outcome of the first such step — matched reply,
elapsed deadline, or destroy, whichever fires first — and every later
step is a no-op for that request because its pending entry is gone. -/
theorem request_resolved_exactly_once (st : CorrState) (id : Nat)
    (hp : pendingCount id st = 1) (hr : resolutionsFor id st = []) :
    (∀ evs, (resolutionsFor id (corrRun st evs)).length +
        pendingCount id (corrRun st evs) = 1) ∧
    (∀ evs, (resolutionsFor id (corrRun st evs)).length ≤ 1) ∧
    (∀ evs1 ev evs2, (∀ e ∈ evs1, e.resolves id = false) →
      ev.resolves id = true →
      resolutionsFor id (corrRun st (evs1 ++ ev :: evs2)) = [ev.outcomeFor] ∧
      pendingCount id (corrRun st (evs1 ++ ev :: evs2)) = 0) := by
  have hle : pendingCount id st ≤ 1 := by omega
  refine ⟨?_, ?_, ?_⟩
  · intro evs
    have hcons := (corrRun_conservation id evs st hle).1
    rw [hr, hp] at hcons
    simpa using hcons
  · intro evs
    have hcons := (corrRun_conservation id evs st hle).1
    rw [hr, hp] at hcons
    simp at hcons
    omega
  · intro evs1 ev evs2 h1 hres
    have hpre := corrRun_nonresolving id evs1 st h1
    have hstep := (corrStep_pending_res (corrRun st evs1) id ev).2.2
      (hpre.1.trans hp) hres
    have hpost := corrRun_noop id evs2 (corrStep (corrRun st evs1) ev) hstep.1
    rw [corrRun_append]
    have hmid : corrRun (corrRun st evs1) (ev :: evs2) =
        corrRun (corrStep (corrRun st evs1) ev) evs2 := rfl
    rw [hmid]
    refine ⟨?_, hpost.1⟩
    rw [hpost.2, hstep.2, hpre.2, hr]
    simp

/-- Witness for C1: a request with id 5 pending once; an unrelated reply,
then a destroy, then a late matching reply.  The caller observes exactly
the destroyed outcome. -/
theorem request_resolved_exactly_once_witness :
    resolutionsFor 5
        (corrRun { pending := [(5, 100)], resolved := [] }
          ([CorrEvent.reply 3 "success" none] ++ CorrEvent.destroy ::
            [CorrEvent.reply 5 "success" none])) =
      [CorrEvent.outcomeFor CorrEvent.destroy] :=
  ((request_resolved_exactly_once { pending := [(5, 100)], resolved := [] } 5
      (by decide) rfl).2.2 [CorrEvent.reply 3 "success" none]
    CorrEvent.destroy [CorrEvent.reply 5 "success" none]
    (by intro e he; simp at he; subst he; decide) (by decide)).1

end MpvTauri
